import Mathlib

/-!
Verification of the envelop plugin-hook orchestration core.

Shallow embedding of `packages/core/src/utils.ts` and `packages/core/src/create.ts`,
plus spec-modelled definitions for the orchestrator pipeline (`orchestrator.ts` is not
part of the sources at hand; only its callers, declarations and tests are).

Async-iterable model: the runtime is single-threaded and cooperative, so the
observable behaviour of consuming a wrapped async iterable is captured by a finite
source stream (a list of emitted items followed by a termination mode: normal end or
a thrown error) together with a consumption mode (full drain, or the consumer ceasing
iteration after j items and invoking the iterator's return). A consumer that cancels
is assumed to have begun iterating (a for-await loop always issues at least one next
call); for a started generator, return runs pending finally blocks.
-/

namespace Envelop

/-- Termination mode of a source async iterable: it either ends normally after its
items, or throws an error after emitting them. -/
inductive Termination (ε : Type) where
  | normal : Termination ε
  | thrown : ε → Termination ε
deriving DecidableEq, Repr

/-- A finite source async iterable: the items it emits, then how it terminates. -/
structure SourceStream (α : Type) (ε : Type) where
  items : List α
  term : Termination ε
deriving DecidableEq, Repr

/-- How the consumer consumes a wrapped iterator: drains it fully, or ceases
iteration (calls return) after receiving j items. -/
inductive Consumption where
  | drain : Consumption
  | cancelAfter : Nat → Consumption
deriving DecidableEq, Repr

/-- Outcome observed by the consumer of a wrapped iterator. -/
inductive Outcome (ε : Type) where
  | done : Outcome ε
  | cancelled : Outcome ε
  | errored : ε → Outcome ε
deriving DecidableEq, Repr

/-- Whether the consumer reaches the end of a stream of the given length (so that
the stream's own termination, normal or thrown, becomes observable). -/
def reachesEnd (c : Consumption) (len : Nat) : Bool :=
  match c with
  | .drain => true
  | .cancelAfter j => len ≤ j

/-- Embedding of `mapAsyncIterator` (utils.ts): `for await (const value of
asyncIterable) yield map(value)`. Items are mapped one by one; the source's
termination (normal end or thrown error) propagates unchanged. -/
def mapAsyncIterator (asyncIterable : SourceStream α ε) (map : α → β) : SourceStream β ε :=
  ⟨asyncIterable.items.map map, asyncIterable.term⟩

/-- Result of consuming `finalAsyncIterator`: items delivered to the consumer, how
many times `onFinal` ran, and the outcome the consumer observes. -/
structure FinalRun (α ε : Type) where
  delivered : List α
  onFinalCalls : Nat
  outcome : Outcome ε
deriving DecidableEq, Repr

/-- Embedding of `finalAsyncIterator` (utils.ts): `try { yield* asyncIterable }
finally { onFinal() }`. Under generator semantics the finally block runs when the
inner iterable is exhausted, when it throws, and when the consumer calls return on
the started generator; in each case `onFinal` runs exactly at that point. -/
def runFinal (src : SourceStream α ε) (c : Consumption) : FinalRun α ε :=
  match c with
  | .drain =>
    ⟨src.items, 1,
      match src.term with
      | .normal => .done
      | .thrown e => .errored e⟩
  | .cancelAfter j =>
    if j < src.items.length then
      ⟨src.items.take j, 1, .cancelled⟩
    else
      ⟨src.items, 1,
        match src.term with
        | .normal => .done
        | .thrown e => .errored e⟩

/-- Result of consuming `errorAsyncIterator`: items delivered, the arguments of the
`onError` invocations, and the consumer-observed outcome. -/
structure ErrorRun (α ε : Type) where
  delivered : List α
  onErrorCalls : List ε
  outcome : Outcome ε
deriving DecidableEq, Repr

/-- Embedding of `errorAsyncIterator` (utils.ts): `try { yield* asyncIterable }
catch (err) { onError(err) }`. A throw from the source is caught and handed to
`onError`; the callback may itself return normally (`onError e = none`, after which
the generator completes and the consumer sees a normal end) or throw
(`onError e = some e2`, which propagates to the consumer). Consumer-side return is
not an exception, so it never enters the catch block. -/
def runError (src : SourceStream α ε) (onError : ε → Option ε) (c : Consumption) :
    ErrorRun α ε :=
  if reachesEnd c src.items.length then
    match src.term with
    | .normal => ⟨src.items, [], .done⟩
    | .thrown e =>
      ⟨src.items, [e],
        match onError e with
        | none => .done
        | some e2 => .errored e2⟩
  else
    match c with
    | .drain => ⟨src.items, [], .done⟩
    | .cancelAfter j => ⟨src.items.take j, [], .cancelled⟩

/-- Callback events observable on a wrapped subscription stream. -/
inductive SubEvent (α ε : Type) where
  | onNext : α → SubEvent α ε
  | onEnd : SubEvent α ε
  | onError : ε → SubEvent α ε
deriving DecidableEq, Repr

/-- Modelled from the spec: the subscribe pipeline's stream wiring lives in
orchestrator.ts, which is not among the sources here. Per the spec, the pipeline
subscribes to the stream, invoking every registered onNext handler for every
emitted item in emission order, and, on stream completion (normal end, early
consumer cancellation, or thrown error), invoking the onEnd / onError
(onSubscribeError) analogues exactly once per stream, where an exception from the
source async iterable triggers the onError path instead of the normal onEnd. The
result is the ordered trace of callback invocations for one stream. -/
def subscribeStreamTrace (src : SourceStream α ε) (c : Consumption) :
    List (SubEvent α ε) :=
  if reachesEnd c src.items.length then
    src.items.map SubEvent.onNext ++
      [match src.term with
       | .normal => SubEvent.onEnd
       | .thrown e => SubEvent.onError e]
  else
    match c with
    | .drain => src.items.map SubEvent.onNext ++ [SubEvent.onEnd]
    | .cancelAfter j => (src.items.take j).map SubEvent.onNext ++ [SubEvent.onEnd]

/-- True exactly on the error-path events of a stream trace. -/
def isErrorEvent : SubEvent α ε → Bool
  | .onError _ => true
  | _ => false

/-- Payload shape `{ data: { alphabet: value } }` used by the subscribe tests. -/
structure AlphabetData where
  alphabet : String
deriving DecidableEq, Repr

/-- Execution result carrying only a data field, as in the subscribe tests. -/
structure AlphabetResult where
  data : AlphabetData
deriving DecidableEq, Repr

/-- Embedding of the test's `streamExecuteFn` (subscribe.spec.ts): an async
generator yielding `{ data: { alphabet: value } }` for value in a, b, c, d, then
ending normally. -/
def streamExecuteFn : SourceStream AlphabetResult Unit :=
  ⟨["a", "b", "c", "d"].map (fun v => ⟨⟨v⟩⟩), .normal⟩

/-- Modelled from the spec: for each emitted item, every registered onNext handler
runs in plugin order; a handler's setResult replaces the item seen by subsequent
handlers and by the final consumer (this wiring lives in orchestrator.ts, not among
the sources here). A handler is represented by what it does with the current item:
`none` leaves it, `some r` is a setResult call with r. -/
def applyOnNextHandlers (handlers : List (α → Option α)) (item : α) : α :=
  handlers.foldl (fun cur h => (h cur).getD cur) item

/-- The subscribe pipeline's per-item rewriting of a source stream: the item
mapping `applyOnNextHandlers` applied through `mapAsyncIterator` (utils.ts). -/
def subscribePipelineStream (handlers : List (α → Option α))
    (src : SourceStream α ε) : SourceStream α ε :=
  mapAsyncIterator src (applyOnNextHandlers handlers)

/-- Embedding of the test plugin's onNext handler (subscribe.spec.ts, `Should be
able to manipulate streams`): it unconditionally calls
`setResult({ data: { alphabet: 'x' } })`. -/
def alphabetOnNextHandler : AlphabetResult → Option AlphabetResult :=
  fun _ => some ⟨⟨"x"⟩⟩

/-- Modelled from the spec: the context-building phase runner (orchestrator.ts is
not among the sources here) awaits each plugin's onContextBuilding before-hook
strictly sequentially in plugin-list order, each extendContext merge being visible
to every later hook. Each plugin is represented by the one distinct key it adds;
the context is the list of keys present. The run returns the final context and,
per plugin in order, the context that plugin's before-hook observed when invoked. -/
def runContextBuilding (ctx : List K) (keys : List K) : List K × List (List K) :=
  match keys with
  | [] => (ctx, [])
  | k :: rest =>
    let r := runContextBuilding (ctx ++ [k]) rest
    (r.1, ctx :: r.2)

/-- A context object: an ordered key/value record. -/
abbrev Obj (K V : Type) := List (K × V)

/-- One key write of an Object.assign-style merge: an existing key keeps its
position and gets the new value; a fresh key is appended. -/
def setKey [DecidableEq K] (o : Obj K V) (k : K) (v : V) : Obj K V :=
  if o.any (fun p => decide (p.1 = k)) then
    o.map (fun p => if p.1 = k then (k, v) else p)
  else
    o ++ [(k, v)]

/-- Object.assign-style merge of an extension into a context object, key by key in
the extension's order. -/
def assignMerge [DecidableEq K] (o ext : Obj K V) : Obj K V :=
  ext.foldl (fun acc p => setKey acc p.1 p.2) o

/-- Per-request state: a heap of objects (object identity is the index) and the
reference to the request context object. -/
structure RequestState (K V : Type) where
  objects : List (Obj K V)
  contextRef : Nat

/-- Modelled from the spec: extendContext (implemented in orchestrator.ts, not
among the sources here; useExtendContext calls it) merges the extension's keys
into the same context object in place. It rewrites the heap slot the context
reference points at; it never allocates a new object and never rebinds the
reference. -/
def extendContext [DecidableEq K] (st : RequestState K V) (ext : Obj K V) :
    RequestState K V :=
  ⟨st.objects.set st.contextRef
      (assignMerge (st.objects.getD st.contextRef []) ext),
    st.contextRef⟩

/-- Dereference an object reference in the request state's heap. -/
def derefContext (st : RequestState K V) (r : Nat) : Obj K V :=
  st.objects.getD r []

/-- Execution result or async-iterable stream, the union consumed by
`handleStreamOrSingleExecutionResult` (utils.ts). The stream representation is
abstract. -/
inductive AsyncIterableIteratorOrValue (α σ : Type) where
  | value : α → AsyncIterableIteratorOrValue α σ
  | asyncIterable : σ → AsyncIterableIteratorOrValue α σ
deriving DecidableEq, Repr

/-- Embedding of `isAsyncIterable` (utils.ts): true exactly when the object carries
an asyncIterator method, i.e. on the stream variant. -/
def isAsyncIterable : AsyncIterableIteratorOrValue α σ → Bool
  | .value _ => false
  | .asyncIterable _ => true

/-- Payload of the onExecuteDone hook: execution args, the (single or streamed)
result, and the setResult function (kept abstract; only its identity matters). -/
structure OnExecuteDoneEventPayload (A α σ SR : Type) where
  args : A
  result : AsyncIterableIteratorOrValue α σ
  setResult : SR
deriving DecidableEq, Repr

/-- Return value of onExecuteDone for a streamed result: the registered per-item
onNext handler. -/
structure OnExecuteDoneHookResult (F : Type) where
  onNext : F

/-- Embedding of `handleStreamOrSingleExecutionResult` (utils.ts). The handler fn
is opaque; its invocations are made observable in the second component, the
ordered list of payloads fn is called with (the code discards fn's return value).
If the result is an async iterable, the function returns `{ onNext: fn }` and fn is
not invoked; otherwise fn is invoked once with
`{ args: payload.args, result: payload.result, setResult: payload.setResult }` and
undefined (`none`) is returned. -/
def handleStreamOrSingleExecutionResult (payload : OnExecuteDoneEventPayload A α σ SR)
    (fn : F) :
    Option (OnExecuteDoneHookResult F) × List (OnExecuteDoneEventPayload A α σ SR) :=
  if isAsyncIterable payload.result then
    (some ⟨fn⟩, [])
  else
    (none, [⟨payload.args, payload.result, payload.setResult⟩])

/-- The combined execute arguments object (graphql's ExecutionArgs shape), with one
abstract type per field so that field positions are distinguishable. -/
structure ExecutionArgs (S D R C V O F T : Type) where
  schema : S
  document : D
  rootValue : R
  contextValue : C
  variableValues : V
  operationName : O
  fieldResolver : F
  typeResolver : T
deriving DecidableEq, Repr

/-- Polymorphic execute arguments (types.ts): either one combined arguments object
(`args.length === 1`), or the legacy positional form. -/
inductive PolymorphicExecuteArguments (S D R C V O F T : Type) where
  | single : ExecutionArgs S D R C V O F T → PolymorphicExecuteArguments S D R C V O F T
  | positional : S → D → R → C → V → O → F → T →
      PolymorphicExecuteArguments S D R C V O F T
deriving DecidableEq, Repr

/-- Embedding of `getExecuteArgs` (utils.ts): the combined object is passed through
unchanged; the positional form is packed into the object with each argument in its
field. -/
def getExecuteArgs : PolymorphicExecuteArguments S D R C V O F T →
    ExecutionArgs S D R C V O F T
  | .single args => args
  | .positional s d r c v o f t => ⟨s, d, r, c, v, o, f, t⟩

/-- Embedding of `makeExecute` (utils.ts): wraps an execute function so that it
receives the normalized combined arguments object. -/
def makeExecute (executeFn : ExecutionArgs S D R C V O F T → β) :
    PolymorphicExecuteArguments S D R C V O F T → β :=
  fun polyArgs => executeFn (getExecuteArgs polyArgs)

/-- The combined subscription arguments object: same first seven fields as
ExecutionArgs, with subscribeFieldResolver as the eighth. -/
structure SubscriptionArgs (S D R C V O F T : Type) where
  schema : S
  document : D
  rootValue : R
  contextValue : C
  variableValues : V
  operationName : O
  fieldResolver : F
  subscribeFieldResolver : T
deriving DecidableEq, Repr

/-- Polymorphic subscribe arguments (types.ts): one combined object or the legacy
positional form. -/
inductive PolymorphicSubscribeArguments (S D R C V O F T : Type) where
  | single : SubscriptionArgs S D R C V O F T → PolymorphicSubscribeArguments S D R C V O F T
  | positional : S → D → R → C → V → O → F → T →
      PolymorphicSubscribeArguments S D R C V O F T
deriving DecidableEq, Repr

/-- Embedding of `getSubscribeArgs` (utils.ts): like `getExecuteArgs`, with the
eighth positional argument packed as subscribeFieldResolver. -/
def getSubscribeArgs : PolymorphicSubscribeArguments S D R C V O F T →
    SubscriptionArgs S D R C V O F T
  | .single args => args
  | .positional s d r c v o f t => ⟨s, d, r, c, v, o, f, t⟩

/-- Embedding of `makeSubscribe` (utils.ts): wraps a subscribe function so that it
receives the normalized combined arguments object. -/
def makeSubscribe (subscribeFn : SubscriptionArgs S D R C V O F T → β) :
    PolymorphicSubscribeArguments S D R C V O F T → β :=
  fun polyArgs => subscribeFn (getSubscribeArgs polyArgs)

/-- Phases of request processing. -/
inductive Phase where
  | parse | validate | contextBuilding | execute | subscribe
deriving DecidableEq, Repr

/-- Inputs determining one request: the parse outcome (errors are data, never
thrown by the runner), the validation function producing an error list, the
operation kind, and the phase functions. -/
structure RequestInput (D E R : Type) where
  parseResult : Except E D
  validateFn : D → List E
  isSubscription : Bool
  executeFn : D → R
  subscribeFn : D → R

/-- Observable record of one request run: the phases that ran in order, the
validation error list (none if validation never ran), and the final result. -/
structure RequestRun (E R : Type) where
  phases : List Phase
  validationErrors : Option (List E)
  result : Option R

/-- Modelled from the spec: per request the driver runs parse, then validate, then
context building, and finally execute or subscribe; parse and validation failures
are represented as data, and once validation fails (non-empty error list) the
request stops after the validation phase, so execution/subscription never runs.
The request driver around the orchestrator pipelines is not among the sources
here. -/
def runRequest (inp : RequestInput D E R) : RequestRun E R :=
  match inp.parseResult with
  | .error _ => ⟨[.parse], none, none⟩
  | .ok doc =>
    let errs := inp.validateFn doc
    if errs.isEmpty then
      if inp.isSubscription then
        ⟨[.parse, .validate, .contextBuilding, .subscribe], some errs,
          some (inp.subscribeFn doc)⟩
      else
        ⟨[.parse, .validate, .contextBuilding, .execute], some errs,
          some (inp.executeFn doc)⟩
    else
      ⟨[.parse, .validate], some errs, none⟩

/-- A plugin, for the purposes of initialization: its id and the plugins its
onPluginInit hook registers through addPlugin (each of which may register
further plugins). -/
inductive Plugin where
  | mk : Nat → List Plugin → Plugin

/-- The plugins a plugin's onPluginInit adds via addPlugin. -/
def Plugin.adds : Plugin → List Plugin
  | .mk _ a => a

/-- Modelled from the spec: the plugin initializer (orchestrator.ts is not among
the sources here) processes plugins by index using a worklist over the growable
list; a plugin's onPluginInit may call addPlugin, appending to the same list being
iterated, and appended plugins are themselves processed once reached. Returns the
final grown list, in processing order. -/
def initWorklist (processed pending : List Plugin) : List Plugin :=
  match pending with
  | [] => processed
  | p :: rest => initWorklist (processed ++ [p]) (rest ++ p.adds)
termination_by (pending.map sizeOf).sum
decreasing_by
  simp only [List.map_append, List.sum_append, List.map_cons, List.sum_cons]
  have key : ∀ l : List Plugin, (l.map sizeOf).sum < sizeOf l := by
    intro l
    induction l with
    | nil => simp
    | cons a t ih =>
      simp only [List.map_cons, List.sum_cons, List.cons.sizeOf_spec]
      omega
  have hp : sizeOf p.adds < sizeOf p := by
    cases p with
    | mk i a =>
      simp only [Plugin.adds, Plugin.mk.sizeOf_spec]
      omega
  have hk := key p.adds
  omega

/-- A heap of plugin arrays: the caller's array is identified by its index, so
reference sharing and in-place mutation are observable. -/
structure ArrayHeap where
  arrays : List (List Plugin)

/-- Operations performed on the orchestrator instance. -/
inductive OrchOp where
  | construct | init | parse | validate | contextFactory | getCurrentSchema
deriving DecidableEq, Repr

/-- The function returned by `envelop` (create.ts): `_plugins` holds the reference
to the caller's plugin array, and the closure holds the one orchestrator built at
factory time (recorded by the factory's operation list). -/
structure GetEnveloped where
  pluginsRef : Nat
  factoryOps : List OrchOp

/-- Embedding of `envelop` (create.ts) combined with the spec-modelled plugin
initializer: `const plugins = options.plugins` keeps the caller's array by
reference (no copy), `createEnvelopOrchestrator` is invoked exactly once at
factory time and processes that array with the worklist — any addPlugin call
appending to the same array in place (spec-modelled: orchestrator.ts is not among
the sources here) — and `getEnveloped._plugins = plugins` exposes the same
reference. -/
def envelop (heap : ArrayHeap) (pluginsRef : Nat) : ArrayHeap × GetEnveloped :=
  let plugins := heap.arrays.getD pluginsRef []
  let heap2 : ArrayHeap := ⟨heap.arrays.set pluginsRef (initWorklist [] plugins)⟩
  (heap2, ⟨pluginsRef, [OrchOp.construct]⟩)

/-- Embedding of one call of getEnveloped (create.ts): the call invokes init on the
orchestrator captured by the closure, then derives parse, validate, contextFactory
and schema from that same orchestrator; it constructs no new orchestrator and does
not touch the plugin array, so the heap is returned unchanged. -/
def callGetEnveloped (heap : ArrayHeap) (_g : GetEnveloped) :
    ArrayHeap × List OrchOp :=
  (heap, [OrchOp.init, OrchOp.parse, OrchOp.validate, OrchOp.contextFactory,
    OrchOp.getCurrentSchema])

/-- A plugin whose onPluginInit registers one further plugin via addPlugin. -/
def selfRegisteringPlugin : Plugin := .mk 0 [.mk 1 []]

/-- A heap holding one caller-owned plugin array containing only
`selfRegisteringPlugin`. -/
def cexHeap : ArrayHeap := ⟨[[selfRegisteringPlugin]]⟩

/-- C2: for every async iterable src and callback f, consuming
finalAsyncIterator(src, f) invokes f exactly once on termination of the
iteration, in every termination mode: normal exhaustion of src, early consumer
cancellation, or an error thrown during iteration. -/
theorem claim_C2_final_async_iterator_cleanup_exactly_once
    {α ε : Type} (src : SourceStream α ε) (c : Consumption) :
    (runFinal src c).onFinalCalls = 1 := by
  cases c with
  | drain => rfl
  | cancelAfter j =>
    unfold runFinal
    split <;> split <;> rfl

/-- C9: when the source wrapped by errorAsyncIterator throws and the onError
callback returns normally, the wrapped iterator reports normal completion to its
consumer without re-raising; the consumer observes a thrown error only if the
onError callback itself throws. -/
theorem claim_C9_error_iterator_swallows_source_error
    {α ε : Type} (src : SourceStream α ε) (e : ε) (onError : ε → Option ε)
    (h : src.term = .thrown e) :
    (runError src onError .drain).onErrorCalls = [e] ∧
    (runError src onError .drain).outcome =
      (match onError e with
       | none => Outcome.done
       | some e2 => Outcome.errored e2) := by
  unfold runError reachesEnd
  rw [h]
  exact ⟨rfl, rfl⟩

/-- Witness for C9 at a concrete stream throwing 99 after two items, with an
onError callback that returns normally. -/
theorem claim_C9_witness :
    (runError (⟨[10, 20], .thrown 99⟩ : SourceStream Nat Nat)
        (fun _ => none) .drain).onErrorCalls = [99] ∧
    (runError (⟨[10, 20], .thrown 99⟩ : SourceStream Nat Nat)
        (fun _ => none) .drain).outcome = Outcome.done :=
  claim_C9_error_iterator_swallows_source_error ⟨[10, 20], .thrown 99⟩ 99
    (fun _ => none) rfl

/-- C3: with the test's async generator yielding a, b, c, d mapped to
`{data:{alphabet:v}}` and one registered onNext handler that unconditionally
calls `setResult({data:{alphabet:'x'}})`, fully draining the stream yields
exactly four `{data:{alphabet:'x'}}` items. -/
theorem claim_C3_set_result_replaces_each_streamed_item :
    (subscribePipelineStream [alphabetOnNextHandler] streamExecuteFn).items =
      [⟨⟨"x"⟩⟩, ⟨⟨"x"⟩⟩, ⟨⟨"x"⟩⟩, ⟨⟨"x"⟩⟩] ∧
    (subscribePipelineStream [alphabetOnNextHandler] streamExecuteFn).term =
      .normal :=
  ⟨rfl, rfl⟩

/-- C6: handleStreamOrSingleExecutionResult returns `{onNext: fn}` without
invoking fn when the result is an async iterable; otherwise it invokes fn exactly
once with `{args, result, setResult}` taken from the payload and returns
undefined. -/
theorem claim_C6_handle_stream_or_single_result
    {A α σ SR F : Type} (payload : OnExecuteDoneEventPayload A α σ SR) (fn : F) :
    (isAsyncIterable payload.result = true →
      handleStreamOrSingleExecutionResult payload fn = (some ⟨fn⟩, [])) ∧
    (isAsyncIterable payload.result = false →
      handleStreamOrSingleExecutionResult payload fn =
        (none, [⟨payload.args, payload.result, payload.setResult⟩])) := by
  constructor <;> intro h <;>
    simp [handleStreamOrSingleExecutionResult, h]

/-- Witness for C6 at a concrete stream payload and a concrete single-result
payload. -/
theorem claim_C6_witness :
    handleStreamOrSingleExecutionResult
        (⟨0, .asyncIterable 3, 1⟩ : OnExecuteDoneEventPayload Nat Nat Nat Nat)
        (5 : Nat) = (some ⟨5⟩, []) ∧
    handleStreamOrSingleExecutionResult
        (⟨0, .value 7, 1⟩ : OnExecuteDoneEventPayload Nat Nat Nat Nat)
        (5 : Nat) = (none, [⟨0, .value 7, 1⟩]) :=
  ⟨(claim_C6_handle_stream_or_single_result ⟨0, .asyncIterable 3, 1⟩ 5).1 rfl,
   (claim_C6_handle_stream_or_single_result ⟨0, .value 7, 1⟩ 5).2 rfl⟩

/-- C7: makeExecute passes a single combined arguments object through unchanged
and packs the legacy positional form into the object with each argument in its
field; makeSubscribe behaves identically with subscribeFieldResolver as the
eighth positional argument. -/
theorem claim_C7_polymorphic_arguments_normalized
    {S D R C V O FR T β : Type}
    (f : ExecutionArgs S D R C V O FR T → β)
    (g : SubscriptionArgs S D R C V O FR T → β)
    (x : ExecutionArgs S D R C V O FR T) (y : SubscriptionArgs S D R C V O FR T)
    (s : S) (d : D) (r : R) (cv : C) (v : V) (o : O) (fr : FR) (t : T) :
    makeExecute f (.single x) = f x ∧
    makeExecute f (.positional s d r cv v o fr t) = f ⟨s, d, r, cv, v, o, fr, t⟩ ∧
    makeSubscribe g (.single y) = g y ∧
    makeSubscribe g (.positional s d r cv v o fr t) =
      g ⟨s, d, r, cv, v, o, fr, t⟩ :=
  ⟨rfl, rfl, rfl, rfl⟩

/-- C1: if a wrapped source stream throws after emitting its items and the
consumer reaches that point, the trace of callbacks is exactly one onNext per
emitted item in order followed by a single onError; the error path fires exactly
once, onEnd never fires, and no onNext occurs after the throw (the error event is
the last event of the trace). -/
theorem claim_C1_source_error_fires_error_path_once
    {α ε : Type} (src : SourceStream α ε) (e : ε) (c : Consumption)
    (hterm : src.term = .thrown e)
    (hreach : reachesEnd c src.items.length = true) :
    subscribeStreamTrace src c =
      src.items.map SubEvent.onNext ++ [SubEvent.onError e] ∧
    (subscribeStreamTrace src c).countP isErrorEvent = 1 ∧
    SubEvent.onEnd ∉ subscribeStreamTrace src c ∧
    (subscribeStreamTrace src c).getLast? = some (SubEvent.onError e) := by
  have htr : subscribeStreamTrace src c =
      src.items.map SubEvent.onNext ++ [SubEvent.onError e] := by
    unfold subscribeStreamTrace
    rw [hterm, if_pos hreach]
  refine ⟨htr, ?_, ?_, ?_⟩
  · rw [htr]
    simp [List.countP_append, List.countP_map, isErrorEvent, Function.comp,
      List.countP_cons]
  · rw [htr]
    simp [isErrorEvent]
  · rw [htr]
    simp

/-- Witness for C1 at a concrete stream that throws 99 after emitting two items,
fully drained by the consumer. -/
theorem claim_C1_witness :
    subscribeStreamTrace (⟨[10, 20], .thrown 99⟩ : SourceStream Nat Nat) .drain =
      [SubEvent.onNext 10, SubEvent.onNext 20, SubEvent.onError 99] ∧
    (subscribeStreamTrace (⟨[10, 20], .thrown 99⟩ : SourceStream Nat Nat)
      .drain).countP isErrorEvent = 1 ∧
    SubEvent.onEnd ∉
      subscribeStreamTrace (⟨[10, 20], .thrown 99⟩ : SourceStream Nat Nat) .drain ∧
    (subscribeStreamTrace (⟨[10, 20], .thrown 99⟩ : SourceStream Nat Nat)
      .drain).getLast? = some (SubEvent.onError 99) :=
  claim_C1_source_error_fires_error_path_once ⟨[10, 20], .thrown 99⟩ 99 .drain
    rfl rfl

/-- C8: for every request whose validation phase runs and produces a non-empty
error list, neither the execute phase nor the subscribe phase of that request
ever runs. -/
theorem claim_C8_failed_validation_blocks_execution
    {D E R : Type} (inp : RequestInput D E R) (errs : List E)
    (hv : (runRequest inp).validationErrors = some errs) (hne : errs ≠ []) :
    Phase.execute ∉ (runRequest inp).phases ∧
    Phase.subscribe ∉ (runRequest inp).phases := by
  obtain ⟨pr, vf, isSub, ef, sf⟩ := inp
  cases pr with
  | error err => simp [runRequest] at hv
  | ok doc =>
    by_cases hemp : (vf doc).isEmpty
    · exfalso
      cases hsub : isSub <;> simp [runRequest, hemp, hsub] at hv <;>
        exact hne (hv ▸ List.isEmpty_iff.mp hemp)
    · simp [runRequest, hemp]

/-- Witness for C8 at a concrete request whose validation yields one error. -/
theorem claim_C8_witness :
    Phase.execute ∉
      (runRequest (⟨.ok 0, fun _ => ["boom"], false, fun _ => 1, fun _ => 2⟩ :
        RequestInput Nat String Nat)).phases ∧
    Phase.subscribe ∉
      (runRequest (⟨.ok 0, fun _ => ["boom"], false, fun _ => 1, fun _ => 2⟩ :
        RequestInput Nat String Nat)).phases :=
  claim_C8_failed_validation_blocks_execution
    ⟨.ok 0, fun _ => ["boom"], false, fun _ => 1, fun _ => 2⟩ ["boom"] rfl
    (by decide)

/-- The context-building run ends with the starting context followed by every
plugin's key, in order. -/
theorem runContextBuilding_fst {K : Type} (ctx keys : List K) :
    (runContextBuilding ctx keys).1 = ctx ++ keys := by
  induction keys generalizing ctx with
  | nil => simp [runContextBuilding]
  | cons k rest ih =>
    simp [runContextBuilding, ih]

/-- Each plugin's before-hook is invoked exactly once, so one context observation
is recorded per plugin. -/
theorem runContextBuilding_snd_length {K : Type} (ctx keys : List K) :
    (runContextBuilding ctx keys).2.length = keys.length := by
  induction keys generalizing ctx with
  | nil => simp [runContextBuilding]
  | cons k rest ih =>
    simp [runContextBuilding, ih]

/-- The i-th plugin's before-hook observes the starting context extended by the
keys of the first i plugins, in order. -/
theorem runContextBuilding_snd_get {K : Type} (ctx keys : List K) (i : Nat)
    (h : i < keys.length) :
    (runContextBuilding ctx keys).2.get? i = some (ctx ++ keys.take i) := by
  induction keys generalizing ctx i with
  | nil => cases h
  | cons k rest ih =>
    cases i with
    | zero => simp [runContextBuilding]
    | succ i =>
      have h2 : i < rest.length := Nat.lt_of_succ_lt_succ h
      have h3 := ih (ctx ++ [k]) i h2
      simp only [runContextBuilding, List.get?_cons_succ]
      simpa [List.append_assoc] using h3

/-- C4: for every plugin list whose onContextBuilding hooks add pairwise distinct
keys, the before-hooks run strictly sequentially in list order, after
context-building the context holds exactly all N keys in order, and plugin i's
before-hook observes exactly the keys added by plugins 0..i-1 and no key added by
any plugin at position i or later. -/
theorem claim_C4_context_building_sequential_and_cumulative
    {K : Type} (keys : List K) (hnd : keys.Nodup) :
    (runContextBuilding [] keys).1 = keys ∧
    (runContextBuilding [] keys).2.length = keys.length ∧
    (∀ i, i < keys.length →
      (runContextBuilding [] keys).2.get? i = some (keys.take i)) ∧
    (∀ i j, i < keys.length → ∀ hj : j < keys.length,
      (keys.get ⟨j, hj⟩ ∈ keys.take i ↔ j < i)) := by
  refine ⟨by simpa using runContextBuilding_fst [] keys,
    runContextBuilding_snd_length [] keys, ?_, ?_⟩
  · intro i hi
    simpa using runContextBuilding_snd_get [] keys i hi
  · intro i j hi hj
    constructor
    · intro hmem
      obtain ⟨m, heq⟩ := List.mem_iff_get.mp hmem
      have hmi : (m : Nat) < i := by
        have := m.isLt
        simp only [List.length_take] at this
        omega
      have hmlen : (m : Nat) < keys.length := by
        have := m.isLt
        simp only [List.length_take] at this
        omega
      have hget : keys.get ⟨m, hmlen⟩ = keys.get ⟨j, hj⟩ := by
        have h1 : (keys.take i).get m = keys.get ⟨m, hmlen⟩ := by
          simp [List.get_eq_getElem, List.getElem_take]
        rw [← h1, heq]
      have hfin := (List.Nodup.get_inj_iff hnd).mp hget
      have hmj : (m : Nat) = j := congrArg Fin.val hfin
      omega
    · intro hji
      have htl : j < (keys.take i).length := by
        simp only [List.length_take]
        omega
      have hgt : (keys.take i).get ⟨j, htl⟩ = keys.get ⟨j, hj⟩ := by
        simp [List.get_eq_getElem, List.getElem_take]
      rw [← hgt]
      exact List.get_mem _ _ _

/-- Witness for C4 at the concrete three-plugin list adding keys a, b, c. -/
theorem claim_C4_witness :
    (runContextBuilding [] ["a", "b", "c"]).1 = ["a", "b", "c"] ∧
    (runContextBuilding [] ["a", "b", "c"]).2.length =
      (["a", "b", "c"] : List String).length ∧
    (∀ i, i < (["a", "b", "c"] : List String).length →
      (runContextBuilding [] ["a", "b", "c"]).2.get? i =
        some ((["a", "b", "c"] : List String).take i)) ∧
    (∀ i j, i < (["a", "b", "c"] : List String).length →
      ∀ hj : j < (["a", "b", "c"] : List String).length,
      ((["a", "b", "c"] : List String).get ⟨j, hj⟩ ∈
          (["a", "b", "c"] : List String).take i ↔ j < i)) :=
  claim_C4_context_building_sequential_and_cumulative ["a", "b", "c"] (by decide)

/-- Writing a heap slot in place and reading it back through the same reference
yields the written object. -/
theorem getD_set_self {γ : Type} (l : List γ) (i : Nat) (a d : γ)
    (h : i < l.length) : (l.set i a).getD i d = a := by
  simp [List.getD, List.getElem?_set_self h]

/-- One extendContext call merges into the object behind the existing context
reference. -/
theorem derefContext_extendContext {K V : Type} [DecidableEq K]
    (st : RequestState K V) (e : Obj K V)
    (h : st.contextRef < st.objects.length) :
    derefContext (extendContext st e) st.contextRef =
      assignMerge (derefContext st st.contextRef) e := by
  simp only [derefContext, extendContext]
  exact getD_set_self _ _ _ _ h

/-- C5: across any sequence of extendContext calls performed during a request,
the context object reference never changes, no context object is ever replaced by
a new allocation, and dereferencing the reference taken at the start of the
request yields the initial context with every extension merged in, in order. -/
theorem claim_C5_context_reference_stable
    {K V : Type} [DecidableEq K] (st : RequestState K V)
    (exts : List (Obj K V)) (h : st.contextRef < st.objects.length) :
    (exts.foldl extendContext st).contextRef = st.contextRef ∧
    (exts.foldl extendContext st).objects.length = st.objects.length ∧
    derefContext (exts.foldl extendContext st) st.contextRef =
      exts.foldl assignMerge (derefContext st st.contextRef) := by
  induction exts generalizing st with
  | nil => exact ⟨rfl, rfl, rfl⟩
  | cons e rest ih =>
    have href : (extendContext st e).contextRef = st.contextRef := rfl
    have hlen : (extendContext st e).objects.length = st.objects.length := by
      simp [extendContext]
    have h2 : (extendContext st e).contextRef <
        (extendContext st e).objects.length := by
      rw [href, hlen]
      exact h
    obtain ⟨ha, hb, hc⟩ := ih (extendContext st e) h2
    refine ⟨by rw [List.foldl_cons, ha, href],
      by rw [List.foldl_cons, hb, hlen], ?_⟩
    rw [List.foldl_cons, List.foldl_cons]
    rw [← href, hc, href, derefContext_extendContext st e h]

/-- Witness for C5 at a concrete request state and two concrete extensions. -/
theorem claim_C5_witness :
    (([[("foo", 1)], [("init", 0)]] : List (Obj String Nat)).foldl
        extendContext ⟨[[("base", 7)], [("other", 9)]], 0⟩).contextRef = 0 ∧
    (([[("foo", 1)], [("init", 0)]] : List (Obj String Nat)).foldl
        extendContext ⟨[[("base", 7)], [("other", 9)]], 0⟩).objects.length = 2 ∧
    derefContext
        (([[("foo", 1)], [("init", 0)]] : List (Obj String Nat)).foldl
          extendContext ⟨[[("base", 7)], [("other", 9)]], 0⟩) 0 =
      ([[("foo", 1)], [("init", 0)]] : List (Obj String Nat)).foldl
        assignMerge [("base", 7)] :=
  claim_C5_context_reference_stable ⟨[[("base", 7)], [("other", 9)]], 0⟩
    [[("foo", 1)], [("init", 0)]] (by decide)

/-- Size bound for lists of plugins, used to unfold the worklist. -/
theorem sum_map_sizeOf_lt_sizeOf (l : List Plugin) :
    (l.map sizeOf).sum < sizeOf l := by
  induction l with
  | nil => simp
  | cons a t ih =>
    simp only [List.map_cons, List.sum_cons, List.cons.sizeOf_spec]
    omega

/-- The plugins added by a plugin's onPluginInit are smaller than the plugin. -/
theorem adds_sizeOf_lt (p : Plugin) : sizeOf p.adds < sizeOf p := by
  cases p with
  | mk i a =>
    simp only [Plugin.adds, Plugin.mk.sizeOf_spec]
    omega

/-- The worklist with an empty pending list returns the processed plugins. -/
theorem initWorklist_nil (processed : List Plugin) :
    initWorklist processed [] = processed := by
  rw [initWorklist]

/-- One worklist step: the head plugin is processed and the plugins it adds are
appended to the pending list. -/
theorem initWorklist_cons (processed : List Plugin) (p : Plugin)
    (rest : List Plugin) :
    initWorklist processed (p :: rest) =
      initWorklist (processed ++ [p]) (rest ++ p.adds) := by
  rw [initWorklist]

/-- The plugins present when initialization starts are a prefix of the grown
list: the worklist appends added plugins after them. -/
theorem initWorklist_pending_prefix (pending processed : List Plugin) :
    processed ++ pending <+: initWorklist processed pending := by
  suffices H : ∀ n pending, (pending.map sizeOf).sum = n →
      ∀ processed : List Plugin,
        processed ++ pending <+: initWorklist processed pending by
    exact H _ pending rfl processed
  intro n
  induction n using Nat.strong_induction_on with
  | _ n ih =>
    intro pending hn processed
    cases pending with
    | nil => simp [initWorklist_nil]
    | cons p rest =>
      have hdec : ((rest ++ p.adds).map sizeOf).sum < n := by
        subst hn
        simp only [List.map_append, List.sum_append, List.map_cons,
          List.sum_cons]
        have h1 := sum_map_sizeOf_lt_sizeOf p.adds
        have h2 := adds_sizeOf_lt p
        omega
      rw [initWorklist_cons]
      have heq : processed ++ (p :: rest) = (processed ++ [p]) ++ rest := by
        simp
      have hpre : processed ++ (p :: rest) <+:
          (processed ++ [p]) ++ (rest ++ p.adds) := by
        rw [heq, ← List.append_assoc]
        exact List.prefix_append _ _
      exact hpre.trans (ih _ hdec (rest ++ p.adds) rfl (processed ++ [p]))

/-- The worklist only ever appends to the processed prefix. -/
theorem initWorklist_append (pending processed : List Plugin) :
    initWorklist processed pending = processed ++ initWorklist [] pending := by
  suffices H : ∀ n pending, (pending.map sizeOf).sum = n →
      ∀ processed : List Plugin,
        initWorklist processed pending = processed ++ initWorklist [] pending by
    exact H _ pending rfl processed
  intro n
  induction n using Nat.strong_induction_on with
  | _ n ih =>
    intro pending hn processed
    cases pending with
    | nil => simp [initWorklist_nil]
    | cons p rest =>
      have hdec : ((rest ++ p.adds).map sizeOf).sum < n := by
        subst hn
        simp only [List.map_append, List.sum_append, List.map_cons,
          List.sum_cons]
        have h1 := sum_map_sizeOf_lt_sizeOf p.adds
        have h2 := adds_sizeOf_lt p
        omega
      rw [initWorklist_cons, initWorklist_cons]
      rw [ih _ hdec (rest ++ p.adds) rfl (processed ++ [p]),
        ih _ hdec (rest ++ p.adds) rfl ([] ++ [p])]
      simp

/-- The caller's original plugin list is a prefix of the grown list: plugin
initialization only appends. -/
theorem initWorklist_prefix (processed pending : List Plugin) :
    processed <+: initWorklist processed pending :=
  ⟨initWorklist [] pending, (initWorklist_append pending processed).symm⟩

/-- When no plugin registers further plugins, initialization leaves the plugin
list exactly as given. -/
theorem initWorklist_no_adds (pending : List Plugin)
    (h : ∀ p ∈ pending, p.adds = []) (processed : List Plugin) :
    initWorklist processed pending = processed ++ pending := by
  induction pending generalizing processed with
  | nil => simp [initWorklist_nil]
  | cons p rest ih =>
    rw [initWorklist_cons, h p (List.mem_cons_self _ _), List.append_nil,
      ih (fun q hq => h q (List.mem_cons_of_mem _ hq)) (processed ++ [p])]
    simp

/-- C10 counterexample: for the concrete heap whose caller-owned plugin array
holds one plugin that calls addPlugin during onPluginInit, constructing the
envelop factory mutates the caller's array (it grows from one entry to two), so
the claim that constructing and calling the factory leaves the caller's plugins
array unchanged is false. -/
theorem claim_C10_counterexample :
    ((envelop cexHeap 0).1.arrays.getD 0 []).length ≠
      (cexHeap.arrays.getD 0 []).length := by
  show (initWorklist [] [selfRegisteringPlugin]).length ≠ 1
  simp only [selfRegisteringPlugin, initWorklist_cons, Plugin.adds,
    List.nil_append, List.append_nil, initWorklist_nil]
  decide

/-- C10 as amended: envelop keeps the caller's plugin array by reference —
getEnveloped's `_plugins` is the very same array object, no array is copied or
reallocated, one orchestrator is constructed at factory time, and each call of
getEnveloped performs init (plus the phase accessors) on that one orchestrator,
constructing no further orchestrator and leaving the heap unchanged; the caller's
array itself is mutated only by addPlugin appending during plugin initialization
and is unchanged whenever no plugin registers further plugins. -/
theorem claim_C10_amended_factory_shares_plugin_array
    (heap : ArrayHeap) (r : Nat) (h : r < heap.arrays.length) :
    ((envelop heap r).2).pluginsRef = r ∧
    ((envelop heap r).1).arrays.length = heap.arrays.length ∧
    ((envelop heap r).1).arrays.getD r [] =
      initWorklist [] (heap.arrays.getD r []) ∧
    heap.arrays.getD r [] <+: ((envelop heap r).1).arrays.getD r [] ∧
    ((∀ p ∈ heap.arrays.getD r [], p.adds = []) →
      ((envelop heap r).1).arrays.getD r [] = heap.arrays.getD r []) ∧
    ((envelop heap r).2).factoryOps = [OrchOp.construct] ∧
    (callGetEnveloped (envelop heap r).1 (envelop heap r).2).1 =
      (envelop heap r).1 ∧
    OrchOp.construct ∉ (callGetEnveloped (envelop heap r).1 (envelop heap r).2).2 ∧
    OrchOp.init ∈ (callGetEnveloped (envelop heap r).1 (envelop heap r).2).2 := by
  have hget : ((envelop heap r).1).arrays.getD r [] =
      initWorklist [] (heap.arrays.getD r []) := by
    simp only [envelop]
    exact getD_set_self _ _ _ _ h
  refine ⟨rfl, by simp [envelop], hget, ?_, ?_, rfl, rfl, by simp [callGetEnveloped],
    by simp [callGetEnveloped]⟩
  · rw [hget]
    simpa using initWorklist_pending_prefix (heap.arrays.getD r []) []
  · intro hno
    rw [hget, initWorklist_no_adds _ hno []]
    simp

/-- Witness for the amended C10 at a concrete heap with two plugin arrays, the
first being the caller's, whose plugins register nothing. -/
theorem claim_C10_amended_witness :
    ((envelop ⟨[[Plugin.mk 0 []], []]⟩ 0).2).pluginsRef = 0 ∧
    ((envelop ⟨[[Plugin.mk 0 []], []]⟩ 0).1).arrays.length =
      (⟨[[Plugin.mk 0 []], []]⟩ : ArrayHeap).arrays.length ∧
    ((envelop ⟨[[Plugin.mk 0 []], []]⟩ 0).1).arrays.getD 0 [] =
      initWorklist [] ((⟨[[Plugin.mk 0 []], []]⟩ : ArrayHeap).arrays.getD 0 []) ∧
    (⟨[[Plugin.mk 0 []], []]⟩ : ArrayHeap).arrays.getD 0 [] <+:
      ((envelop ⟨[[Plugin.mk 0 []], []]⟩ 0).1).arrays.getD 0 [] ∧
    ((∀ p ∈ (⟨[[Plugin.mk 0 []], []]⟩ : ArrayHeap).arrays.getD 0 [],
        p.adds = []) →
      ((envelop ⟨[[Plugin.mk 0 []], []]⟩ 0).1).arrays.getD 0 [] =
        (⟨[[Plugin.mk 0 []], []]⟩ : ArrayHeap).arrays.getD 0 []) ∧
    ((envelop ⟨[[Plugin.mk 0 []], []]⟩ 0).2).factoryOps = [OrchOp.construct] ∧
    (callGetEnveloped (envelop ⟨[[Plugin.mk 0 []], []]⟩ 0).1
        (envelop ⟨[[Plugin.mk 0 []], []]⟩ 0).2).1 =
      (envelop ⟨[[Plugin.mk 0 []], []]⟩ 0).1 ∧
    OrchOp.construct ∉ (callGetEnveloped (envelop ⟨[[Plugin.mk 0 []], []]⟩ 0).1
      (envelop ⟨[[Plugin.mk 0 []], []]⟩ 0).2).2 ∧
    OrchOp.init ∈ (callGetEnveloped (envelop ⟨[[Plugin.mk 0 []], []]⟩ 0).1
      (envelop ⟨[[Plugin.mk 0 []], []]⟩ 0).2).2 :=
  claim_C10_amended_factory_shares_plugin_array ⟨[[Plugin.mk 0 []], []]⟩ 0
    (by simp)

end Envelop
